import Mathlib

/-!
Verification of the job-application tracker
(src/job-tracker-svelte/src/routes/+page.svelte).

The store logic of the page is shallowly embedded below:

* JS strings are modelled by Lean `String`; the JS string methods
  `trim`, `toLowerCase` and `includes` used by the page are translated
  as `jsTrim`, `jsToLower` and `jsIncludes` over `String.data`
  (whitespace per `Char.isWhitespace`, ASCII case folding, contiguous
  substring occurrence).  These are the executable models of the
  platform string methods the component calls.
* `localStorage` holds at most one value under the fixed storage key;
  the stored raw string is modelled at the level of its parse result
  by `StoredVal`: `junk` is a string `JSON.parse` rejects, `wrongShape`
  is a string that parses as JSON but whose value is not an array of
  application records, and `arr l` is a string that parses exactly to
  the record array `l`.  `JSON.stringify` followed by `JSON.parse` is
  the identity on record arrays (platform codec property, spec §5/§6),
  so `save` writes `StoredVal.arr` of the current list.
* `load` in the source does `JSON.parse(raw) as JobApp[]`: the `as`
  cast performs no runtime validation, so a parseable value of the
  wrong shape is returned as-is.  `LoadResult.other` stands for such a
  returned value that is not a list of records.
* `Date.now()` and the generated id are environment inputs, passed as
  explicit arguments `now` and `fresh` to `addApp`.
* The JS array sort on load (`(a, b) => b.createdAt - a.createdAt`,
  stable per ES2019) is modelled by a stable merge sort on the
  descending `createdAt` order.
-/

namespace JobTracker

/-- Model of JS `String.prototype.trim`: drop leading and trailing
whitespace characters. -/
def jsTrim (s : String) : String :=
  String.mk (((s.data.dropWhile Char.isWhitespace).reverse.dropWhile
    Char.isWhitespace).reverse)

/-- Model of JS `String.prototype.toLowerCase` (ASCII case folding). -/
def jsToLower (s : String) : String :=
  String.mk (s.data.map Char.toLower)

/-- Does the pattern occur at the head of the text? -/
def matchAt : List Char → List Char → Bool
  | [], _ => true
  | _ :: _, [] => false
  | c :: q, h :: t => c == h && matchAt q t

/-- Does the pattern occur contiguously anywhere in the text? -/
def subOccurs (q : List Char) : List Char → Bool
  | [] => matchAt q []
  | h :: t => matchAt q (h :: t) || subOccurs q t

/-- Model of JS `String.prototype.includes`. -/
def jsIncludes (hay q : String) : Bool :=
  subOccurs q.data hay.data

/-- `type Status = "Applied" | "Interviewing" | "Offer" | "Rejected"` (line 5). -/
inductive Status
  | applied
  | interviewing
  | offer
  | rejected
deriving DecidableEq, Repr

/-- `type JobApp` (lines 7-16): one tracked job application. -/
structure JobApp where
  id : String
  company : String
  role : String
  status : Status
  date : String
  link : String
  notes : String
  createdAt : Int
deriving DecidableEq, Repr

/-- The raw string stored under the storage key, classified by what
`JSON.parse` does with it (see the header comment). -/
inductive StoredVal
  | junk
  | wrongShape
  | arr (l : List JobApp)
deriving DecidableEq

/-- What `load()` returns: a list of records, or (because the `as`
cast does not validate) some parsed JSON value that is not a list of
records, passed through unvalidated. -/
inductive LoadResult
  | records (l : List JobApp)
  | other
deriving DecidableEq

/-- The component state the store operations touch: the in-memory
`apps` array and the storage slot under `STORAGE_KEY` (`none` when no
snapshot exists). -/
structure StoreState where
  apps : List JobApp
  storage : Option StoredVal
deriving DecidableEq

/-- `save()` (lines 35-37): `localStorage.setItem(STORAGE_KEY, JSON.stringify(apps))`. -/
def save (s : StoreState) : StoreState :=
  { s with storage := some (StoredVal.arr s.apps) }

/-- `load()` (lines 39-47): missing key gives `[]`; `JSON.parse` throwing
is caught and gives `[]`; otherwise the parsed value is returned with an
unchecked cast. -/
def load (storage : Option StoredVal) : LoadResult :=
  match storage with
  | none => LoadResult.records []
  | some StoredVal.junk => LoadResult.records []
  | some StoredVal.wrongShape => LoadResult.other
  | some (StoredVal.arr l) => LoadResult.records l

/-- The form fields read by `addApp` (the bound variables `company`,
`role`, `status`, `date`, `link`, `notes` of lines 20-25). -/
structure AddInput where
  company : String
  role : String
  status : Status
  date : String
  link : String
  notes : String

/-- `addApp()` (lines 53-78).  `fresh` is the value `uid()` returned and
`now` the value of `Date.now()` for this call. -/
def addApp (inp : AddInput) (fresh : String) (now : Int) (s : StoreState) : StoreState :=
  let cleanCompany := jsTrim inp.company
  let cleanRole := jsTrim inp.role
  if cleanCompany = "" ∨ cleanRole = "" then s
  else
    let item : JobApp :=
      { id := fresh
        company := cleanCompany
        role := cleanRole
        status := inp.status
        date := inp.date
        link := jsTrim inp.link
        notes := jsTrim inp.notes
        createdAt := now }
    save { s with apps := item :: s.apps }

/-- `removeApp(id)` (lines 80-83): `apps = apps.filter((a) => a.id !== id); save()`. -/
def removeApp (i : String) (s : StoreState) : StoreState :=
  save { s with apps := s.apps.filter fun a => decide (a.id ≠ i) }

/-- `setStatus(id, next)` (lines 85-88):
`apps = apps.map((a) => (a.id === id ? { ...a, status: next } : a)); save()`. -/
def setStatus (i : String) (next : Status) (s : StoreState) : StoreState :=
  save { s with apps := s.apps.map fun a => if a.id = i then { a with status := next } else a }

/-- The active filter `filter: "All" | Status` (line 28). -/
inductive Filter
  | all
  | status (st : Status)
deriving DecidableEq

/-- The reactive `filtered` value (lines 100-110) as a function of the
list, the active filter and the search query. -/
def filtered (apps : List JobApp) (fil : Filter) (query : String) : List JobApp :=
  (apps.filter fun a =>
      match fil with
      | Filter.all => true
      | Filter.status st => decide (a.status = st)).filter
    fun a =>
      let q := jsToLower (jsTrim query)
      if q = "" then true
      else
        jsIncludes (jsToLower a.company) q ||
        jsIncludes (jsToLower a.role) q ||
        jsIncludes (jsToLower a.notes) q

/-- The shape of the reactive `counts` object (lines 112-118). -/
structure Counts where
  all : Nat
  applied : Nat
  interviewing : Nat
  offer : Nat
  rejected : Nat
deriving DecidableEq, Repr

/-- The reactive `counts` value (lines 112-118) as a function of the list. -/
def counts (apps : List JobApp) : Counts :=
  { all := apps.length
    applied := (apps.filter fun a => decide (a.status = Status.applied)).length
    interviewing := (apps.filter fun a => decide (a.status = Status.interviewing)).length
    offer := (apps.filter fun a => decide (a.status = Status.offer)).length
    rejected := (apps.filter fun a => decide (a.status = Status.rejected)).length }

/-- The view model output: the spec's `derive` returns the pair of the
two reactive values. -/
structure DeriveOut where
  filtered : List JobApp
  counts : Counts
deriving DecidableEq

/-- The spec's `derive(list, activeFilter, searchQuery)`: the two
reactive values recomputed from their inputs (spec §4.2; both reactive
statements depend only on `apps`, `filter`, `query`). -/
def derive (apps : List JobApp) (fil : Filter) (query : String) : DeriveOut :=
  DeriveOut.mk (filtered apps fil query) (counts apps)

/-- The `onMount` sort (line 50): `.sort((a, b) => b.createdAt - a.createdAt)`,
stable descending sort by `createdAt`. -/
def sortByCreatedAtDesc (l : List JobApp) : List JobApp :=
  l.mergeSort fun a b => decide (b.createdAt ≤ a.createdAt)

/-- The project of a list of records onto their `id` fields. -/
def ids (l : List JobApp) : List String :=
  l.map JobApp.id

/-- States reachable from a fresh store (empty list, no snapshot) by
the component's operations.  `mount` re-reads storage as `onMount`
does; it fires only when `load` produces a record list (when `load`
passes a non-list through, the `.sort` call throws in JS before `apps`
is assigned, so no new state arises).  `add` takes the generated id
and timestamp as arbitrary environment inputs. -/
inductive Reachable : StoreState → Prop
  | init : Reachable { apps := [], storage := none }
  | mount {st : StoreState} {l : List JobApp} :
      Reachable st → load st.storage = LoadResult.records l →
      Reachable { st with apps := sortByCreatedAtDesc l }
  | add {st : StoreState} (inp : AddInput) (fresh : String) (now : Int) :
      Reachable st → Reachable (addApp inp fresh now st)
  | remove {st : StoreState} (i : String) :
      Reachable st → Reachable (removeApp i st)
  | set {st : StoreState} (i : String) (next : Status) :
      Reachable st → Reachable (setStatus i next st)

/-- Reachability under the freshness assumption on the id generator:
every id handed to `add` is distinct from all ids already in the list
(what `uid()` delivers with overwhelming probability, spec §4.1). -/
inductive ReachableFresh : StoreState → Prop
  | init : ReachableFresh { apps := [], storage := none }
  | mount {st : StoreState} {l : List JobApp} :
      ReachableFresh st → load st.storage = LoadResult.records l →
      ReachableFresh { st with apps := sortByCreatedAtDesc l }
  | add {st : StoreState} (inp : AddInput) (fresh : String) (now : Int) :
      ReachableFresh st → fresh ∉ ids st.apps →
      ReachableFresh (addApp inp fresh now st)
  | remove {st : StoreState} (i : String) :
      ReachableFresh st → ReachableFresh (removeApp i st)
  | set {st : StoreState} (i : String) (next : Status) :
      ReachableFresh st → ReachableFresh (setStatus i next st)

/-- Claim C1 as stated is false on the code: a snapshot that parses as
JSON but is not an array of records is NOT loaded as an empty
sequence — the unchecked cast passes the parsed value through. -/
theorem load_wrongShape_not_empty :
    load (some StoredVal.wrongShape) ≠ LoadResult.records [] := by
  decide

/-- Claim C1 (amended): `load` returns an empty sequence when no
snapshot exists and when the snapshot is not valid JSON (the parse
throws and is caught); a snapshot that parses as JSON but is not an
array of records is returned as-is without validation; a snapshot that
parses to a record array is returned intact.  `load` itself never
throws. -/
theorem load_amended :
    load none = LoadResult.records [] ∧
    load (some StoredVal.junk) = LoadResult.records [] ∧
    load (some StoredVal.wrongShape) = LoadResult.other ∧
    ∀ l : List JobApp, load (some (StoredVal.arr l)) = LoadResult.records l :=
  ⟨rfl, rfl, rfl, fun _ => rfl⟩

/-- Claim C2: when the trimmed company or the trimmed role is empty,
`addApp` creates nothing: the list is unchanged (same elements, same
length) and the storage slot is untouched. -/
theorem addApp_rejected (inp : AddInput) (fresh : String) (now : Int) (s : StoreState)
    (h : jsTrim inp.company = "" ∨ jsTrim inp.role = "") :
    (addApp inp fresh now s).apps = s.apps ∧
    (addApp inp fresh now s).apps.length = s.apps.length ∧
    (addApp inp fresh now s).storage = s.storage := by
  simp only [addApp, if_pos h]
  exact ⟨trivial, trivial, trivial⟩

/-- Witness for C2 at a concrete rejected input: blank company, valid role. -/
theorem addApp_rejected_witness :
    (addApp (AddInput.mk "   " "SWE" Status.applied "2024-01-01" "" "")
        "id1" 0 { apps := [], storage := none }).apps = [] :=
  (addApp_rejected (AddInput.mk "   " "SWE" Status.applied "2024-01-01" "" "")
      "id1" 0 { apps := [], storage := none } (Or.inl (by decide))).1

/-- Helper: filtering twice with the same predicate equals filtering once. -/
theorem filter_twice {α : Type} (p : α → Bool) (l : List α) :
    (l.filter p).filter p = l.filter p :=
  List.filter_eq_self.mpr fun _ ha => (List.mem_filter.mp ha).2

/-- Claim C3: with non-empty trimmed company and role, `addApp` prepends
exactly one record built from the trimmed inputs, the generated id and
the current timestamp, keeps the prior records in order behind it,
grows the list by one, and persists the full new list. -/
theorem addApp_accepted (inp : AddInput) (fresh : String) (now : Int) (s : StoreState)
    (hc : jsTrim inp.company ≠ "") (hr : jsTrim inp.role ≠ "") :
    (addApp inp fresh now s).apps =
      { id := fresh, company := jsTrim inp.company, role := jsTrim inp.role,
        status := inp.status, date := inp.date, link := jsTrim inp.link,
        notes := jsTrim inp.notes, createdAt := now } :: s.apps ∧
    (addApp inp fresh now s).apps.length = s.apps.length + 1 ∧
    (addApp inp fresh now s).storage =
      some (StoredVal.arr
        ({ id := fresh, company := jsTrim inp.company, role := jsTrim inp.role,
           status := inp.status, date := inp.date, link := jsTrim inp.link,
           notes := jsTrim inp.notes, createdAt := now } :: s.apps)) := by
  have h : ¬(jsTrim inp.company = "" ∨ jsTrim inp.role = "") := by
    rintro (h | h)
    · exact hc h
    · exact hr h
  refine ⟨?_, ?_, ?_⟩ <;> simp [addApp, save, h]

/-- Witness for C3: the §8 scenario, company " Acme " and role " SWE ". -/
theorem addApp_accepted_witness :
    (addApp (AddInput.mk " Acme " " SWE " Status.applied "2024-01-01" "" "")
        "id1" 5 { apps := [], storage := none }).apps =
      [{ id := "id1", company := "Acme", role := "SWE", status := Status.applied,
         date := "2024-01-01", link := "", notes := "", createdAt := 5 }] ∧
    (addApp (AddInput.mk " Acme " " SWE " Status.applied "2024-01-01" "" "")
        "id1" 5 { apps := [], storage := none }).apps.length = 1 := by
  have h := addApp_accepted (AddInput.mk " Acme " " SWE " Status.applied "2024-01-01" "" "")
    "id1" 5 { apps := [], storage := none } (by decide) (by decide)
  refine ⟨?_, h.2.1⟩
  rw [h.1]
  have hc : jsTrim " Acme " = "Acme" := by decide
  have hr : jsTrim " SWE " = "SWE" := by decide
  have hl : jsTrim "" = "" := by decide
  rw [hc, hr, hl]

/-- Claim C4: `removeApp` is idempotent on the whole store state, and
removing an id that no record carries leaves the list unchanged. -/
theorem removeApp_idempotent (s : StoreState) (i : String) :
    removeApp i (removeApp i s) = removeApp i s ∧
    ((∀ a ∈ s.apps, a.id ≠ i) → (removeApp i s).apps = s.apps) := by
  constructor
  · have h2 := filter_twice (fun a : JobApp => decide (a.id ≠ i)) s.apps
    simp only [removeApp, save]
    rw [h2]
  · intro h
    simp only [removeApp, save]
    exact List.filter_eq_self.mpr fun a ha => by simpa using h a ha

/-- Witness for C4 on a concrete store whose single record does not
carry the removed id. -/
theorem removeApp_idempotent_witness :
    removeApp "z" (removeApp "z"
        { apps := [{ id := "a", company := "Acme", role := "SWE",
                     status := Status.applied, date := "2024-01-01", link := "",
                     notes := "", createdAt := 0 }], storage := none }) =
      removeApp "z"
        { apps := [{ id := "a", company := "Acme", role := "SWE",
                     status := Status.applied, date := "2024-01-01", link := "",
                     notes := "", createdAt := 0 }], storage := none } ∧
    (removeApp "z"
        { apps := [{ id := "a", company := "Acme", role := "SWE",
                     status := Status.applied, date := "2024-01-01", link := "",
                     notes := "", createdAt := 0 }], storage := none }).apps =
      [{ id := "a", company := "Acme", role := "SWE", status := Status.applied,
         date := "2024-01-01", link := "", notes := "", createdAt := 0 }] := by
  have h := removeApp_idempotent
    { apps := [{ id := "a", company := "Acme", role := "SWE",
                 status := Status.applied, date := "2024-01-01", link := "",
                 notes := "", createdAt := 0 }], storage := none } "z"
  exact ⟨h.1, h.2 (by decide)⟩

/-- Claim C5: `setStatus` keeps the list length, rewrites each position
by the record-level update, sets `status` to the requested value on the
matching record while leaving its seven other fields untouched, leaves
records with a different id entirely unchanged, and is a no-op on the
list when no record carries the id. -/
theorem setStatus_frame (s : StoreState) (i : String) (next : Status) :
    (setStatus i next s).apps.length = s.apps.length ∧
    (∀ k : Nat, (setStatus i next s).apps[k]? =
      (s.apps[k]?).map fun a => if a.id = i then { a with status := next } else a) ∧
    (∀ k : Nat, ∀ a b : JobApp, s.apps[k]? = some a →
      (setStatus i next s).apps[k]? = some b →
      ((a.id = i →
          b.id = a.id ∧ b.company = a.company ∧ b.role = a.role ∧
          b.date = a.date ∧ b.link = a.link ∧ b.notes = a.notes ∧
          b.createdAt = a.createdAt ∧ b.status = next) ∧
        (a.id ≠ i → b = a))) ∧
    ((∀ a ∈ s.apps, a.id ≠ i) → (setStatus i next s).apps = s.apps) := by
  have hpt : ∀ k : Nat, (setStatus i next s).apps[k]? =
      (s.apps[k]?).map fun a => if a.id = i then { a with status := next } else a := by
    intro k
    simp [setStatus, save, List.getElem?_map]
  refine ⟨by simp [setStatus, save], hpt, ?_, ?_⟩
  · intro k a b ha hb
    rw [hpt k, ha] at hb
    simp only [Option.map_some', Option.some.injEq] at hb
    constructor
    · intro hid
      rw [if_pos hid] at hb
      subst hb
      exact ⟨rfl, rfl, rfl, rfl, rfl, rfl, rfl, rfl⟩
    · intro hid
      rw [if_neg hid] at hb
      exact hb.symm
  · intro h
    simp only [setStatus, save]
    have hmap : s.apps.map (fun a => if a.id = i then { a with status := next } else a) =
        s.apps.map id :=
      List.map_congr_left fun a ha => by rw [if_neg (h a ha)]; rfl
    rw [hmap, List.map_id]

/-- Witness for C5: flipping the status of the single record with id
"a" to Offer changes only that field. -/
theorem setStatus_frame_witness :
    (setStatus "a" Status.offer
        { apps := [{ id := "a", company := "Acme", role := "SWE",
                     status := Status.applied, date := "2024-01-01", link := "",
                     notes := "", createdAt := 0 }], storage := none }).apps[0]? =
      some { id := "a", company := "Acme", role := "SWE", status := Status.offer,
             date := "2024-01-01", link := "", notes := "", createdAt := 0 } := by
  have h := setStatus_frame
    { apps := [{ id := "a", company := "Acme", role := "SWE",
                 status := Status.applied, date := "2024-01-01", link := "",
                 notes := "", createdAt := 0 }], storage := none } "a" Status.offer
  rw [h.2.1 0]
  decide

/-- Field-wise equality of two records, as the spec's §8 persistence
round-trip compares them. -/
def recordFieldEq (a b : JobApp) : Prop :=
  a.id = b.id ∧ a.company = b.company ∧ a.role = b.role ∧ a.status = b.status ∧
  a.date = b.date ∧ a.link = b.link ∧ a.notes = b.notes ∧ a.createdAt = b.createdAt

/-- Claim C6: saving a list and loading it back (before any post-load
sort) yields a record list of the same length whose records agree
field by field with the saved ones. -/
theorem persist_load_roundtrip (L : List JobApp) (prior : Option StoredVal) :
    ∃ M, load (save { apps := L, storage := prior }).storage = LoadResult.records M ∧
      M.length = L.length ∧ List.Forall₂ recordFieldEq M L := by
  refine ⟨L, rfl, rfl, ?_⟩
  exact List.forall₂_same.mpr fun a _ => ⟨rfl, rfl, rfl, rfl, rfl, rfl, rfl, rfl⟩

/-- The first filtering predicate as the spec words it (§4.2):
`activeFilter` is either the sentinel "All" (passes everything) or a
specific status value the record must carry exactly. -/
def specStatusPass (fil : Filter) (a : JobApp) : Bool :=
  match fil with
  | Filter.all => true
  | Filter.status st => decide (a.status = st)

/-- The second filtering predicate as the spec words it (§4.2): the
trimmed, case-folded query is either empty (passes everything) or must
occur as a substring of the case-folded company, role or notes field. -/
def specSearchPass (query : String) (a : JobApp) : Bool :=
  let q := jsToLower (jsTrim query)
  decide (q = "") ||
    (jsIncludes (jsToLower a.company) q ||
     jsIncludes (jsToLower a.role) q ||
     jsIncludes (jsToLower a.notes) q)

/-- Helper: the two chained filters of `filtered` collapse to one
filter by the conjunction of the spec's two predicates. -/
theorem filtered_eq_single (apps : List JobApp) (fil : Filter) (query : String) :
    filtered apps fil query =
      apps.filter fun a => specStatusPass fil a && specSearchPass query a := by
  unfold filtered
  rw [List.filter_filter]
  apply List.filter_congr
  intro a _
  by_cases hq : jsToLower (jsTrim query) = "" <;>
    simp [specStatusPass, specSearchPass, hq, Bool.and_comm]

/-- The Acme record of the spec's §8 filter/search example. -/
def acmeRec : JobApp :=
  { id := "1", company := "Acme", role := "SWE", status := Status.applied,
    date := "2024-01-01", link := "", notes := "", createdAt := 0 }

/-- The Globex record of the spec's §8 filter/search example. -/
def globexRec : JobApp :=
  { id := "2", company := "Globex", role := "SWE", status := Status.offer,
    date := "2024-01-02", link := "", notes := "", createdAt := 1 }

/-- Claim C7: the filtered output is exactly the order-preserving
subset of the list passing the status predicate AND the search
predicate (one pass of `List.filter` over the input list), and the
three §8 example calls return exactly the stated records. -/
theorem derive_filtered_spec (apps : List JobApp) (fil : Filter) (query : String) :
    (derive apps fil query).filtered =
      apps.filter (fun a => specStatusPass fil a && specSearchPass query a) ∧
    (derive [acmeRec, globexRec] (Filter.status Status.offer) "").filtered = [globexRec] ∧
    (derive [acmeRec, globexRec] Filter.all "acme").filtered = [acmeRec] ∧
    (derive [acmeRec, globexRec] (Filter.status Status.applied) "globex").filtered = [] :=
  ⟨filtered_eq_single apps fil query, by decide, by decide, by decide⟩

/-- The count the `counts` object holds for one specific status. -/
def statusCount (c : Counts) : Status → Nat
  | Status.applied => c.applied
  | Status.interviewing => c.interviewing
  | Status.offer => c.offer
  | Status.rejected => c.rejected

/-- Claim C8: `counts` maps All to the length of the full unfiltered
list and each status to the number of records of the full unfiltered
list carrying that status, independent of the filter and query
arguments. -/
theorem derive_counts_spec (apps : List JobApp) (fil : Filter) (query : String) :
    (derive apps fil query).counts.all = apps.length ∧
    (∀ st : Status, statusCount (derive apps fil query).counts st =
      apps.countP fun a => decide (a.status = st)) ∧
    (∀ fil2 : Filter, ∀ query2 : String,
      (derive apps fil query).counts = (derive apps fil2 query2).counts) := by
  refine ⟨rfl, ?_, fun _ _ => rfl⟩
  intro st
  cases st <;> simp [derive, counts, statusCount, List.countP_eq_length_filter]

/-- A valid concrete add-form input used by the reachability examples. -/
def sampleInput : AddInput :=
  AddInput.mk "Acme" "SWE" Status.applied "2024-01-01" "" ""

/-- Claim C9 as stated is false on the code: the id generator is a
random source with no uniqueness guarantee, so the run in which `uid()`
returns "x" twice is a run of the program; the state after those two
adds is reachable and its ids are not unique. -/
theorem reachable_duplicate_ids :
    Reachable (addApp sampleInput "x" 1 (addApp sampleInput "x" 0
      { apps := [], storage := none })) ∧
    ¬ (ids (addApp sampleInput "x" 1 (addApp sampleInput "x" 0
      { apps := [], storage := none })).apps).Nodup := by
  constructor
  · exact Reachable.add _ _ _ (Reachable.add _ _ _ Reachable.init)
  · decide

/-- Claim C9 (amended): under the freshness assumption on the id
generator — every id handed to `add` differs from all ids already in
the list — every reachable state has pairwise distinct record ids. -/
theorem reachableFresh_unique_ids (s : StoreState) (h : ReachableFresh s) :
    (ids s.apps).Nodup := by
  suffices H : (ids s.apps).Nodup ∧
      (∀ l, s.storage = some (StoredVal.arr l) → (ids l).Nodup) from H.1
  induction h with
  | init =>
      exact ⟨List.nodup_nil, fun l hl => by cases hl⟩
  | mount h1 h2 ih =>
      rename_i st l
      refine ⟨?_, fun m hm => ih.2 m hm⟩
      have hperm : ((ids (sortByCreatedAtDesc l))).Perm (ids l) :=
        (List.mergeSort_perm l _).map JobApp.id
      apply hperm.nodup_iff.mpr
      cases hst : st.storage with
      | none =>
          rw [hst] at h2
          have : ([] : List JobApp) = l := by
            simpa [load] using h2
          rw [← this]
          exact List.nodup_nil
      | some v =>
          cases v with
          | junk =>
              rw [hst] at h2
              have : ([] : List JobApp) = l := by
                simpa [load] using h2
              rw [← this]
              exact List.nodup_nil
          | wrongShape =>
              rw [hst] at h2
              simp [load] at h2
          | arr m =>
              rw [hst] at h2
              have hml : m = l := by
                simpa [load] using h2
              rw [← hml]
              exact ih.2 m hst
  | add inp fresh now h1 hfresh ih =>
      rename_i st
      by_cases hrej : jsTrim inp.company = "" ∨ jsTrim inp.role = ""
      · simpa [addApp, hrej] using ih
      · have happs : (addApp inp fresh now st).apps =
            { id := fresh, company := jsTrim inp.company, role := jsTrim inp.role,
              status := inp.status, date := inp.date, link := jsTrim inp.link,
              notes := jsTrim inp.notes, createdAt := now } :: st.apps := by
          simp [addApp, save, hrej]
        have hstor : (addApp inp fresh now st).storage =
            some (StoredVal.arr ((addApp inp fresh now st).apps)) := by
          simp [addApp, save, hrej]
        have hnodup : (ids ((addApp inp fresh now st).apps)).Nodup := by
          rw [happs]
          exact List.nodup_cons.mpr ⟨hfresh, ih.1⟩
        refine ⟨hnodup, fun m hm => ?_⟩
        rw [hstor] at hm
        have : (addApp inp fresh now st).apps = m := by
          injection hm with hm2
          injection hm2
        rw [← this]
        exact hnodup
  | remove i h1 ih =>
      rename_i st
      have hnodup : (ids ((removeApp i st).apps)).Nodup := by
        have hsub : (ids ((removeApp i st).apps)).Sublist (ids st.apps) :=
          List.Sublist.map JobApp.id (List.filter_sublist st.apps)
        exact hsub.nodup ih.1
      refine ⟨hnodup, fun m hm => ?_⟩
      have : (removeApp i st).apps = m := by
        simp only [removeApp, save] at hm
        injection hm with hm2
        injection hm2
      rw [← this]
      exact hnodup
  | set i next h1 ih =>
      rename_i st
      have hids : ids ((setStatus i next st).apps) = ids st.apps := by
        simp only [setStatus, save, ids, List.map_map]
        apply List.map_congr_left
        intro a _
        by_cases hid : a.id = i <;> simp [hid]
      refine ⟨by rw [hids]; exact ih.1, fun m hm => ?_⟩
      have : (setStatus i next st).apps = m := by
        simp only [setStatus, save] at hm
        injection hm with hm2
        injection hm2
      rw [← this, hids]
      exact ih.1

/-- Witness for the amended C9: two adds with distinct fresh ids from
the empty store yield a state with distinct ids. -/
theorem reachableFresh_unique_ids_witness :
    (ids (addApp sampleInput "y" 1 (addApp sampleInput "x" 0
      { apps := [], storage := none })).apps).Nodup :=
  reachableFresh_unique_ids _
    (ReachableFresh.add _ _ _
      (ReachableFresh.add _ _ _ ReachableFresh.init (by decide)) (by decide))

/-- Claim C10: `removeApp` keeps an order-preserving sublist of the
input, no surviving record carries the removed id (all matching
records go, duplicates included), and every record value with a
different id keeps its multiplicity. -/
theorem removeApp_removes_all (s : StoreState) (i : String) :
    ((removeApp i s).apps).Sublist s.apps ∧
    (∀ a ∈ (removeApp i s).apps, a.id ≠ i) ∧
    (∀ a : JobApp, a.id ≠ i → (removeApp i s).apps.count a = s.apps.count a) := by
  refine ⟨?_, ?_, ?_⟩
  · simp only [removeApp, save]
    exact List.filter_sublist s.apps
  · intro a ha
    simp only [removeApp, save] at ha
    simpa using (List.mem_filter.mp ha).2
  · intro a hne
    simp only [removeApp, save]
    exact List.count_filter (decide_eq_true hne)

/-- A record with id "a", first duplicate, for the C10 witness. -/
def recA1 : JobApp :=
  { id := "a", company := "Acme", role := "SWE", status := Status.applied,
    date := "2024-01-01", link := "", notes := "", createdAt := 0 }

/-- A second, distinct record also with id "a" for the C10 witness. -/
def recA2 : JobApp :=
  { id := "a", company := "Globex", role := "PM", status := Status.offer,
    date := "2024-01-02", link := "", notes := "", createdAt := 1 }

/-- A record with id "b" for the C10 witness. -/
def recB : JobApp :=
  { id := "b", company := "Initech", role := "QA", status := Status.rejected,
    date := "2024-01-03", link := "", notes := "", createdAt := 2 }

/-- Witness for C10 on a list holding two records with the removed id
"a" and one with id "b". -/
theorem removeApp_removes_all_witness :
    (removeApp "a" { apps := [recA1, recA2, recB], storage := none }).apps.count recB =
      ([recA1, recA2, recB] : List JobApp).count recB ∧
    recB.id ≠ "a" := by
  have h := removeApp_removes_all { apps := [recA1, recA2, recB], storage := none } "a"
  exact ⟨h.2.2 recB (by decide), h.2.1 recB (by decide)⟩

end JobTracker
